import Mathlib

/-!
Shallow embedding of the TunableOp autotuning core
(aten/src/ATen/cuda/tunable/TunableOp.h).

Durations (C++ doubles) are embedded as rationals; the double value
+infinity, used to seed the running minimum, is embedded as the value
`none` of `Option Rat` together with explicit comparison helpers that
mirror the IEEE comparisons against infinity actually performed by the
source. Fatal TORCH_CHECK failures are embedded as the value `none` of an
`Option` result type. External collaborators (the tuning context, the
parameter object, candidate kernels, the timer) are inputs of the
embedded functions.
-/

namespace TunableOpModel

/-- Modelled from the spec: the status a candidate call reports. The concrete
enum lives in Tunable.h, outside the embedded header; per spec section 4.1 a
call returns OK or a failure status. -/
inductive TuningStatus where
  | OK
  | FAIL
deriving DecidableEq, Repr

/-- Modelled from the spec (section 3, Result/Decision) and the uses inside
TunableOp.h: a result entry is a candidate-name key together with a duration;
`none` embeds the double +infinity. In the source, equality of entries
compares only the key, and an entry converts to its key string for the
registry lookup. -/
structure ResultEntry where
  key : String
  time : Option Rat
deriving DecidableEq, Repr

/-- ResultEntry::Null(). -/
def ResultEntry.null : ResultEntry := ⟨"Null", some 0⟩

/-- ResultEntry::Default(). -/
def ResultEntry.defaultEntry : ResultEntry := ⟨"Default", some 0⟩

/-- Source operator== on ResultEntry compares keys only. -/
def ResultEntry.keyEq (a b : ResultEntry) : Bool := a.key == b.key

/-- Modelled from the spec (section 6): the knobs of the external
TuningContext that TunableOp.h reads. A negative warmup knob means unset
(the source tests with >= 0); the tuning knobs count as set only when
strictly positive (the source tests with > 0). -/
structure TuningContext where
  tunableOpEnabled : Bool
  tuningEnabled : Bool
  numericsCheckEnabled : Bool
  icacheFlushEnabled : Bool
  rotatingBufferSize : Nat
  maxWarmupDurationMs : Rat
  maxWarmupIterations : Int
  maxTuningDurationMs : Rat
  maxTuningIterations : Int
deriving DecidableEq, Repr

/-- Positional lookup in a list, used to state properties of the ordered
per-candidate records of one FindFastest run. -/
def listGet {α : Type} : List α → Nat → Option α
  | [], _ => none
  | a :: _, 0 => some a
  | _ :: l, n + 1 => listGet l n

/-- Conversion of a double to int in C++ truncates toward zero; durations are
embedded as rationals. -/
def cppTruncToInt (q : Rat) : Int := if 0 ≤ q then ⌊q⌋ else -⌊-q⌋

/-- Shared loop body of TunableOp::WarmUp and TunableOp::Profile: call the
candidate once per iteration on pool slot i % pool and check (TORCH_CHECK,
embedded as `none` on failure) that every call returns OK. The optional
instruction cache flush before each call is an external side effect with no
observable influence here. The first argument gives the status of the call
against each pool slot. -/
def runCalls (call : Nat → TuningStatus) (pool : Nat) : Nat → Nat → Option Unit
  | _, 0 => some ()
  | i, n + 1 =>
    if call (i % pool) = TuningStatus.OK then runCalls call pool (i + 1) n else none

/-- TunableOp::WarmUp: num_iter candidate calls round-robining the buffer
pool; every call is asserted to return OK. -/
def WarmUp (call : Nat → TuningStatus) (pool numIter : Nat) : Option Unit :=
  runCalls call pool 0 numIter

/-- TunableOp::Profile: the same call loop wrapped in one start/stop timer
measurement; the timer reading is an external input (elapsed) and the
function returns the mean elapsed / num_iter. A failing call is fatal. -/
def Profile (call : Nat → TuningStatus) (pool numIter : Nat) (elapsed : Rat) :
    Option Rat :=
  match runCalls call pool 0 numIter with
  | some _ => some (elapsed / (numIter : Rat))
  | none => none

/-- Warmup iteration count of FindFastest: starts from the default 1; a
configured (nonnegative) max warmup duration converts to a count via the
approximate duration with the C++ double-to-int truncation; when both knobs
are configured the minimum is taken. -/
def computeWarmupIter (maxWarmupDurationMs : Rat) (maxWarmupIter : Int)
    (approxDuration : Rat) : Int :=
  if 0 ≤ maxWarmupDurationMs then
    if 0 ≤ maxWarmupIter then
      min maxWarmupIter (cppTruncToInt (maxWarmupDurationMs / approxDuration))
    else cppTruncToInt (maxWarmupDurationMs / approxDuration)
  else if 0 ≤ maxWarmupIter then maxWarmupIter
  else 1

/-- Tuning iteration count of FindFastest before the two clamps: default 100;
the duration and iteration knobs count as set only when strictly positive. -/
def tuningIterUnclamped (maxTuningDurationMs : Rat) (maxTuningIter : Int)
    (approxDuration : Rat) : Int :=
  if 0 < maxTuningDurationMs then
    if 0 < maxTuningIter then
      min maxTuningIter (cppTruncToInt (maxTuningDurationMs / approxDuration))
    else cppTruncToInt (maxTuningDurationMs / approxDuration)
  else if 0 < maxTuningIter then maxTuningIter
  else 100

/-- Final tuning iteration count of FindFastest: clamped to at least 1 and
then to at least the parameter buffer pool size. -/
def computeTuningIter (pool : Nat) (maxTuningDurationMs : Rat)
    (maxTuningIter : Int) (approxDuration : Rat) : Int :=
  max (pool : Int)
    (max 1 (tuningIterUnclamped maxTuningDurationMs maxTuningIter approxDuration))

/-- External behavior of one candidate during one FindFastest run: the status
of the correctness-gate call, the outcome of the numerical check against the
reference, whether the calls issued by the timing harness return OK, and the
external timer readings for the approximate profile and the full tuning
profile. -/
structure CandidateBehavior where
  gateCallOk : Bool
  numericsOk : Bool
  timedCallsOk : Bool
  approxElapsed : Rat
  tuningElapsed : Rat
deriving DecidableEq, Repr

/-- Statuses of the calls a candidate receives from the timing harness. -/
def candCalls (b : CandidateBehavior) : Nat → TuningStatus :=
  fun _ => if b.timedCallsOk then TuningStatus.OK else TuningStatus.FAIL

/-- Per-candidate outcome of one iteration of the FindFastest loop. -/
inductive CandEvent where
  | unsupported
  | numericsFailed
  | skippedSlow
  | measured (durationMs : Rat)
deriving DecidableEq, Repr

/-- Whether an event is a completed full measurement. -/
def isMeasured : CandEvent → Bool
  | CandEvent.measured _ => true
  | _ => false

/-- Outcome of the correctness gate for one candidate: a skip event when the
gate fails, plus whether a fresh deep copy (numerical_params) was created for
the gate and whether Delete was called on it. -/
structure GateOutcome where
  skip : Option CandEvent
  copyCreated : Bool
  copyDeleted : Bool
deriving DecidableEq, Repr

/-- Correctness gate with numerics checking enabled: DeepCopy a fresh
non-rotated copy, call the candidate on it; a failing call continues to the
next candidate immediately, before the Delete statement is ever reached;
otherwise NumericalCheck against the reference, then Delete, then the check
status decides the skip. -/
def numericsGate (b : CandidateBehavior) : GateOutcome :=
  if b.gateCallOk then
    if b.numericsOk then ⟨none, true, true⟩
    else ⟨some CandEvent.numericsFailed, true, true⟩
  else ⟨some CandEvent.unsupported, true, false⟩

/-- Correctness gate with numerics checking disabled: one call against the
first pooled buffer, no fresh copy is made. -/
def plainGate (b : CandidateBehavior) : GateOutcome :=
  if b.gateCallOk then ⟨none, false, false⟩
  else ⟨some CandEvent.unsupported, false, false⟩

/-- Correctness gate selected by the numerics-check knob. -/
def gateOf (ctx : TuningContext) (b : CandidateBehavior) : GateOutcome :=
  if ctx.numericsCheckEnabled then numericsGate b else plainGate b

/-- Selection state threaded through the per-candidate loop: min_duration_ms
(seeded with infinity, embedded as `none`) and id_name (seeded "Default"). -/
structure SelState where
  minDurationMs : Option Rat
  idName : String
deriving DecidableEq, Repr

/-- Early-bail test (approx_duration > 2 * min_duration_ms); against the
infinity seed the comparison is always false. -/
def slowBail (approxDuration : Rat) (minDuration : Option Rat) : Bool :=
  match minDuration with
  | none => false
  | some m => decide (2 * m < approxDuration)

/-- Leader test (duration_ms < min_duration_ms); every finite duration is
below the infinity seed. -/
def beatsMin (durationMs : Rat) (minDuration : Option Rat) : Bool :=
  match minDuration with
  | none => true
  | some m => decide (durationMs < m)

/-- Record of one candidate evaluation: the candidate name, the outcome
event, and the accounting of the numerics-gate fresh copy. -/
structure CandRecord where
  name : String
  event : CandEvent
  copyCreated : Bool
  copyDeleted : Bool
deriving DecidableEq, Repr

/-- The small fixed iteration count of the approximate profile. -/
def approxNumIter : Nat := 3

/-- One iteration of the per-candidate loop of FindFastest, for the candidate
with the given name and external behavior: correctness gate, approximate
profile, early bail, iteration calibration, warmup, full measurement, and the
running-minimum update. `none` embeds a fatal TORCH_CHECK failure inside the
timing harness. The int iteration counts are cast to the size_t arguments of
the harness with toNat. -/
def candidateStep (ctx : TuningContext) (pool : Nat) (name : String)
    (b : CandidateBehavior) (st : SelState) : Option (CandRecord × SelState) :=
  match (gateOf ctx b).skip with
  | some ev =>
    some (⟨name, ev, (gateOf ctx b).copyCreated, (gateOf ctx b).copyDeleted⟩, st)
  | none =>
    match Profile (candCalls b) pool approxNumIter b.approxElapsed with
    | none => none
    | some approxDuration =>
      if slowBail approxDuration st.minDurationMs then
        some (⟨name, CandEvent.skippedSlow,
               (gateOf ctx b).copyCreated, (gateOf ctx b).copyDeleted⟩, st)
      else
        match WarmUp (candCalls b) pool
            (computeWarmupIter ctx.maxWarmupDurationMs ctx.maxWarmupIterations
              approxDuration).toNat with
        | none => none
        | some _ =>
          match Profile (candCalls b) pool
              (computeTuningIter pool ctx.maxTuningDurationMs
                ctx.maxTuningIterations approxDuration).toNat b.tuningElapsed with
          | none => none
          | some durationMs =>
            if beatsMin durationMs st.minDurationMs then
              some (⟨name, CandEvent.measured durationMs,
                     (gateOf ctx b).copyCreated, (gateOf ctx b).copyDeleted⟩,
                    ⟨some durationMs, name⟩)
            else
              some (⟨name, CandEvent.measured durationMs,
                     (gateOf ctx b).copyCreated, (gateOf ctx b).copyDeleted⟩, st)

/-- The per-candidate loop of FindFastest over the registered candidates in
registration order, threading the selection state and recording one
CandRecord per candidate reached. -/
def tuningLoop (ctx : TuningContext) (pool : Nat) :
    List (String × CandidateBehavior) → SelState →
      Option (List CandRecord × SelState)
  | [], st => some ([], st)
  | (name, b) :: rest, st =>
    match candidateStep ctx pool name b st with
    | none => none
    | some (rec, st1) =>
      match tuningLoop ctx pool rest st1 with
      | none => none
      | some (recs, stf) => some (rec :: recs, stf)

/-- Outcome of one completed FindFastest run: the parameter buffer pool size,
the ordered per-candidate records, and the returned ResultEntry. -/
structure FindResult where
  poolSize : Nat
  records : List CandRecord
  entry : ResultEntry
deriving DecidableEq, Repr

/-- TunableOp::FindFastest. Inputs: the context, the per-copy size reported
by params->GetSize (paramSize), whether the reference call of the Default
candidate returns OK (a failing reference call is a fatal TORCH_CHECK), and
the registered candidates in registration order with their external
behaviors. The pool holds rotating_size / param_size + 1 deep copies; the
running minimum is seeded with infinity and the leader name with Default.
The up-front instruction cache flushes and the Delete teardown of the pooled
copies and the reference copy are external side effects with no observable
influence on the returned data. -/
def FindFastest (ctx : TuningContext) (paramSize : Nat) (defaultCallOk : Bool)
    (cands : List (String × CandidateBehavior)) : Option FindResult :=
  if defaultCallOk then
    match tuningLoop ctx (ctx.rotatingBufferSize / paramSize + 1) cands
        ⟨none, "Default"⟩ with
    | none => none
    | some (recs, stf) =>
      some ⟨ctx.rotatingBufferSize / paramSize + 1, recs,
            ⟨stf.idName, stf.minDurationMs⟩⟩
  else none

/-- The pool size of a completed FindFastest run. -/
def poolSizeOf (ctx : TuningContext) (paramSize : Nat) (defaultCallOk : Bool)
    (cands : List (String × CandidateBehavior)) : Option Nat :=
  (FindFastest ctx paramSize defaultCallOk cands).map (fun r => r.poolSize)

/-- The record of candidate k of a completed FindFastest run. -/
def recordAt (ctx : TuningContext) (paramSize : Nat) (defaultCallOk : Bool)
    (cands : List (String × CandidateBehavior)) (k : Nat) : Option CandRecord :=
  (FindFastest ctx paramSize defaultCallOk cands).bind
    (fun r => listGet r.records k)

/-- The event of candidate k of a completed FindFastest run. -/
def eventAt (ctx : TuningContext) (paramSize : Nat) (defaultCallOk : Bool)
    (cands : List (String × CandidateBehavior)) (k : Nat) : Option CandEvent :=
  (recordAt ctx paramSize defaultCallOk cands k).map (fun r => r.event)

/-- The candidate name of record k of a completed FindFastest run. -/
def nameAt (ctx : TuningContext) (paramSize : Nat) (defaultCallOk : Bool)
    (cands : List (String × CandidateBehavior)) (k : Nat) : Option String :=
  (recordAt ctx paramSize defaultCallOk cands k).map (fun r => r.name)

/-- The winning name of a completed FindFastest run. -/
def winnerKey (ctx : TuningContext) (paramSize : Nat) (defaultCallOk : Bool)
    (cands : List (String × CandidateBehavior)) : Option String :=
  (FindFastest ctx paramSize defaultCallOk cands).map (fun r => r.entry.key)

/-- Observable outcome of one invocation of TunableOp::operator(): whether
FindFastest was invoked, what was written to the results cache, the name the
call was dispatched to (none embeds the fatal TORCH_CHECK on a registry
miss), and the dispatched candidate status. -/
structure FacadeOutcome where
  findFastestInvoked : Bool
  cacheWrite : Option ResultEntry
  dispatched : Option String
  status : Option TuningStatus
deriving DecidableEq, Repr

/-- Final dispatch of operator(): a Null result falls back to Default, the
chosen key is looked up in the registry (a miss is a fatal TORCH_CHECK), and
the chosen candidate is called. -/
def dispatchTo (invoked : Bool) (wrote : Option ResultEntry)
    (result : ResultEntry) (registry : List String)
    (callStatus : String → TuningStatus) : FacadeOutcome :=
  if registry.contains
      (if result.keyEq ResultEntry.null then ResultEntry.defaultEntry else result).key then
    ⟨invoked, wrote,
     some (if result.keyEq ResultEntry.null then ResultEntry.defaultEntry else result).key,
     some (callStatus
       (if result.keyEq ResultEntry.null then ResultEntry.defaultEntry else result).key)⟩
  else ⟨invoked, wrote, none, none⟩

/-- TunableOp::operator() with the external collaborators as inputs: cached
is what the results manager Lookup returns for (op signature, params
signature) (Null on a miss), findFastestResult is the entry FindFastest
would return, registry lists the registered candidate names, and callStatus
gives the status of a dispatch-time call per candidate name. -/
def facadeCall (ctx : TuningContext) (cached findFastestResult : ResultEntry)
    (registry : List String) (callStatus : String → TuningStatus) :
    FacadeOutcome :=
  if ctx.tunableOpEnabled then
    if cached.keyEq ResultEntry.null && ctx.tuningEnabled then
      dispatchTo true (some findFastestResult) findFastestResult registry callStatus
    else
      dispatchTo false none cached registry callStatus
  else
    dispatchTo false none ResultEntry.defaultEntry registry callStatus

/-- A candidate that passes all gates and timing, with the given timer
readings for the approximate and tuning profiles. -/
def okBehavior (approxElapsed tuningElapsed : Rat) : CandidateBehavior :=
  ⟨true, true, true, approxElapsed, tuningElapsed⟩

/-- A candidate whose correctness-gate call fails. -/
def badCallBehavior : CandidateBehavior := ⟨false, true, true, 0, 0⟩

/-- A candidate whose numerical check against the reference fails. -/
def badNumericsBehavior : CandidateBehavior := ⟨true, false, true, 0, 0⟩

/-- A concrete context: feature and tuning enabled, numerics checking off, no
buffer rotation, warmup knobs unset, tuning capped at 10 iterations. -/
def ctxPlain : TuningContext :=
  ⟨true, true, false, false, 0, -1, -1, 0, 10⟩

/-- ctxPlain with numerics checking enabled. -/
def ctxNumerics : TuningContext :=
  ⟨true, true, true, false, 0, -1, -1, 0, 10⟩

/-- ctxPlain with a rotating buffer budget of 10 bytes. -/
def ctxRotating : TuningContext :=
  ⟨true, true, false, false, 10, -1, -1, 0, 10⟩

/-- ctxPlain with the tunable-op feature disabled. -/
def ctxFeatureOff : TuningContext :=
  ⟨false, true, false, false, 0, -1, -1, 0, 10⟩

/-- Two candidates: a Default measuring 10 ms and a candidate whose
approximate duration 30 ms trips the early bail against 2 * 10 ms. -/
def demoCands : List (String × CandidateBehavior) :=
  [("Default", okBehavior 30 100), ("Slow", okBehavior 90 0)]

/-- Two candidates that both complete a full measurement; Default measures
10 ms, the second 1 ms. -/
def cexCands : List (String × CandidateBehavior) :=
  [("Default", okBehavior 30 100), ("Fast", okBehavior 3 10)]

/-- Three candidates exercising the three paths of the numerics gate. -/
def leakCands : List (String × CandidateBehavior) :=
  [("Default", okBehavior 30 100), ("BadCall", badCallBehavior),
   ("BadNumerics", badNumericsBehavior)]

/-- The record list of a completed FindFastest run. -/
def recordsOf (ctx : TuningContext) (paramSize : Nat) (defaultCallOk : Bool)
    (cands : List (String × CandidateBehavior)) : Option (List CandRecord) :=
  (FindFastest ctx paramSize defaultCallOk cands).map (fun r => r.records)

/-- The ResultEntry of a completed FindFastest run. -/
def entryOf (ctx : TuningContext) (paramSize : Nat) (defaultCallOk : Bool)
    (cands : List (String × CandidateBehavior)) : Option ResultEntry :=
  (FindFastest ctx paramSize defaultCallOk cands).map (fun r => r.entry)

/-- A concrete cached decision naming the FastKernel candidate. -/
def cachedFast : ResultEntry := ⟨"FastKernel", some 2⟩

/-- A concrete entry unrelated to the cached decision. -/
def otherEntry : ResultEntry := ⟨"Other", some 5⟩

/-- A concrete registry of registered candidate names. -/
def registryEx : List String := ["Default", "FastKernel"]

/-- Dispatch-time call statuses that always report OK. -/
def callsOkFun : String → TuningStatus := fun _ => TuningStatus.OK

/-- The call loop succeeds from start index i over n iterations exactly when
every issued call returns OK. -/
theorem runCalls_some_iff (call : Nat → TuningStatus) (pool : Nat) :
    ∀ (n i : Nat), runCalls call pool i n = some () ↔
      ∀ j, j < n → call ((i + j) % pool) = TuningStatus.OK := by
  intro n
  induction n with
  | zero =>
    intro i
    simp [runCalls]
  | succ m ih =>
    intro i
    rw [runCalls]
    by_cases h : call (i % pool) = TuningStatus.OK
    · rw [if_pos h, ih (i + 1)]
      constructor
      · intro hall j hj
        cases j with
        | zero => simpa using h
        | succ j =>
          have hj2 : j < m := by omega
          have hx := hall j hj2
          have harr : i + 1 + j = i + (j + 1) := by omega
          rw [harr] at hx
          exact hx
      · intro hall j hj
        have hx := hall (j + 1) (by omega)
        have harr : i + (j + 1) = i + 1 + j := by omega
        rw [harr] at hx
        exact hx
    · rw [if_neg h]
      constructor
      · intro hc
        exact absurd hc (by simp)
      · intro hall
        exact absurd (by simpa using hall 0 (by omega)) h

/-- C9: in every WarmUp and Profile harness run over numIter calls that
round-robin the pool, each call is asserted to return OK: the harness
completes exactly when every issued call returns OK, and any call returning
non-OK makes the run a fatal invariant violation (an aborted, none outcome)
rather than a recovered or skipped one. -/
theorem harness_asserts_every_call (call : Nat → TuningStatus)
    (pool numIter : Nat) (elapsed : Rat) :
    (WarmUp call pool numIter = some () ↔
      ∀ i, i < numIter → call (i % pool) = TuningStatus.OK) ∧
    ((Profile call pool numIter elapsed).isSome = true ↔
      ∀ i, i < numIter → call (i % pool) = TuningStatus.OK) := by
  have hrun := runCalls_some_iff call pool numIter 0
  simp only [Nat.zero_add] at hrun
  constructor
  · exact hrun
  · unfold Profile
    cases h : runCalls call pool 0 numIter with
    | none =>
      simp only [Option.isSome_none]
      constructor
      · intro hc
        exact absurd hc (by simp)
      · intro hall
        rw [hrun.mpr hall] at h
        exact absurd h (by simp)
    | some u =>
      cases u
      simp only [Option.isSome_some]
      constructor
      · intro _
        exact hrun.mp h
      · intro _
        trivial

/-- C7: for every candidate reaching the calibration step and every
configuration of the tuning duration and iteration knobs (including zero and
unset values), the computed tuning iteration count is at least 1 and at least
the parameter buffer pool size. -/
theorem tuning_iteration_floor (pool : Nat) (maxDur : Rat) (maxIter : Int)
    (approx : Rat) :
    1 ≤ computeTuningIter pool maxDur maxIter approx ∧
    (pool : Int) ≤ computeTuningIter pool maxDur maxIter approx := by
  unfold computeTuningIter
  constructor
  · exact le_trans (le_max_left 1 _) (le_max_right _ _)
  · exact le_max_left _ _

/-- C8: for every candidate reaching the calibration step, with a positive
approximate duration: if neither warmup knob is configured the warmup count
is 1; if both are configured it is the minimum of the iteration knob and the
duration-derived count max_duration / approx_duration; and a configured value
of 0 for either knob yields 0 warmup iterations. -/
theorem warmup_iteration_spec (maxDur : Rat) (maxIter : Int) (approx : Rat)
    (hApprox : 0 < approx) :
    (maxDur < 0 → maxIter < 0 → computeWarmupIter maxDur maxIter approx = 1) ∧
    (0 ≤ maxDur → 0 ≤ maxIter →
      computeWarmupIter maxDur maxIter approx =
        min maxIter (cppTruncToInt (maxDur / approx))) ∧
    (maxDur = 0 → computeWarmupIter maxDur maxIter approx = 0) ∧
    (maxIter = 0 → computeWarmupIter maxDur maxIter approx = 0) := by
  refine ⟨?_, ?_, ?_, ?_⟩
  · intro h1 h2
    unfold computeWarmupIter
    rw [if_neg (not_le.mpr h1), if_neg (not_le.mpr h2)]
  · intro h1 h2
    unfold computeWarmupIter
    rw [if_pos h1, if_pos h2]
  · intro h0
    subst h0
    unfold computeWarmupIter
    rw [if_pos le_rfl]
    have hz : cppTruncToInt (0 / approx) = 0 := by
      rw [zero_div]
      unfold cppTruncToInt
      rw [if_pos le_rfl]
      simp
    rw [hz]
    split
    · exact min_eq_right (by assumption)
    · rfl
  · intro h0
    subst h0
    unfold computeWarmupIter
    by_cases hd : 0 ≤ maxDur
    · rw [if_pos hd, if_pos le_rfl]
      apply min_eq_left
      have hq : 0 ≤ maxDur / approx := div_nonneg hd (le_of_lt hApprox)
      unfold cppTruncToInt
      rw [if_pos hq]
      exact Int.floor_nonneg.mpr hq
    · rw [if_neg hd, if_pos le_rfl]

/-- Witness for warmup_iteration_spec at a configuration with both knobs set:
max duration 6 ms, max iterations 2, approximate duration 2 ms. -/
theorem warmup_iteration_spec_witness :
    (0 : Rat) < 2 ∧
    (((6 : Rat) < 0 → (2 : Int) < 0 → computeWarmupIter 6 2 2 = 1) ∧
     ((0 : Rat) ≤ 6 → (0 : Int) ≤ 2 →
       computeWarmupIter 6 2 2 = min 2 (cppTruncToInt (6 / 2))) ∧
     ((6 : Rat) = 0 → computeWarmupIter 6 2 2 = 0) ∧
     ((2 : Int) = 0 → computeWarmupIter 6 2 2 = 0)) :=
  ⟨by norm_num, warmup_iteration_spec 6 2 2 (by norm_num)⟩

/-- C1: with the tunable-op feature enabled, when the results cache lookup
returns a non-Null decision whose candidate name is registered, the facade
does not invoke FindFastest (the Selector) and dispatches the call to the
candidate named by the cached decision. -/
theorem cache_first_dispatch (ctx : TuningContext)
    (cached findFastestResult : ResultEntry) (registry : List String)
    (callStatus : String → TuningStatus)
    (hEnabled : ctx.tunableOpEnabled = true)
    (hNonNull : cached.key ≠ "Null")
    (hReg : registry.contains cached.key = true) :
    (facadeCall ctx cached findFastestResult registry callStatus).findFastestInvoked
        = false ∧
    (facadeCall ctx cached findFastestResult registry callStatus).dispatched
        = some cached.key := by
  have hbeq : (cached.key == "Null") = false := beq_eq_false_iff_ne.mpr hNonNull
  have hmem : cached.key ∈ registry := by simpa using hReg
  unfold facadeCall dispatchTo
  simp [hEnabled, ResultEntry.keyEq, ResultEntry.null, hbeq, hmem]

/-- Witness for cache_first_dispatch: a cached FastKernel decision in a
registry containing FastKernel. -/
theorem cache_first_dispatch_witness :
    cachedFast.key ≠ "Null" ∧
    ((facadeCall ctxPlain cachedFast otherEntry registryEx callsOkFun).findFastestInvoked
        = false ∧
     (facadeCall ctxPlain cachedFast otherEntry registryEx callsOkFun).dispatched
        = some cachedFast.key) :=
  ⟨by decide,
   cache_first_dispatch ctxPlain cachedFast otherEntry registryEx callsOkFun
     (by decide) (by decide) (by decide)⟩

/-- C3: with the tunable-op tuning feature disabled, the facade skips all
lookup and selection logic and dispatches to the Default candidate, whatever
decision the results cache holds for the key. -/
theorem fallback_dispatch_feature_off (ctx : TuningContext)
    (cached findFastestResult : ResultEntry) (registry : List String)
    (callStatus : String → TuningStatus)
    (hOff : ctx.tunableOpEnabled = false)
    (hReg : registry.contains "Default" = true) :
    (facadeCall ctx cached findFastestResult registry callStatus).findFastestInvoked
        = false ∧
    (facadeCall ctx cached findFastestResult registry callStatus).dispatched
        = some "Default" := by
  have hbeq : (("Default" : String) == "Null") = false := by decide
  have hmem : "Default" ∈ registry := by simpa using hReg
  unfold facadeCall dispatchTo
  simp [hOff, ResultEntry.keyEq, ResultEntry.null, ResultEntry.defaultEntry, hbeq, hmem]

/-- Witness for fallback_dispatch_feature_off: the feature is off while the
cache holds a FastKernel decision; dispatch still goes to Default. -/
theorem fallback_dispatch_feature_off_witness :
    registryEx.contains "Default" = true ∧
    ((facadeCall ctxFeatureOff cachedFast otherEntry registryEx callsOkFun).findFastestInvoked
        = false ∧
     (facadeCall ctxFeatureOff cachedFast otherEntry registryEx callsOkFun).dispatched
        = some "Default") :=
  ⟨by decide,
   fallback_dispatch_feature_off ctxFeatureOff cachedFast otherEntry registryEx
     callsOkFun (by decide) (by decide)⟩

/-- The correctness gate only ever emits an unsupported or a numerics-failed
skip event. -/
theorem gateOf_skip_cases (ctx : TuningContext) (b : CandidateBehavior) :
    (gateOf ctx b).skip = none ∨
    (gateOf ctx b).skip = some CandEvent.unsupported ∨
    (gateOf ctx b).skip = some CandEvent.numericsFailed := by
  unfold gateOf numericsGate plainGate
  split
  · split
    · split <;> simp
    · simp
  · split <;> simp

/-- The early-bail test is never passed against the infinity seed. -/
theorem slowBail_none (approx : Rat) : slowBail approx none = false := rfl

/-- Shape of one candidate-loop iteration: the record carries the candidate
name; a slow-skip event implies the running minimum was already finite; and
the state is unchanged unless the candidate completed a measurement that
beat the running minimum, in which case the candidate becomes the leader. -/
theorem candidateStep_cases (ctx : TuningContext) (pool : Nat) (name : String)
    (b : CandidateBehavior) (st : SelState) (rec : CandRecord) (st1 : SelState)
    (h : candidateStep ctx pool name b st = some (rec, st1)) :
    rec.name = name ∧
    (rec.event = CandEvent.skippedSlow → st.minDurationMs ≠ none) ∧
    (st1 = st ∨ ∃ d, rec.event = CandEvent.measured d ∧ st1 = ⟨some d, name⟩) := by
  unfold candidateStep at h
  split at h
  · rename_i ev hg
    injection h with h
    injection h with h1 h2
    subst h1
    subst h2
    refine ⟨rfl, ?_, Or.inl rfl⟩
    intro hev
    rcases gateOf_skip_cases ctx b with hc | hc | hc <;> rw [hc] at hg
    · exact Option.noConfusion hg
    · injection hg with hg
      rw [← hg] at hev
      simp at hev
    · injection hg with hg
      rw [← hg] at hev
      simp at hev
  · rename_i hg
    split at h
    · exact Option.noConfusion h
    · rename_i approx hp
      split at h
      · rename_i hbail
        injection h with h
        injection h with h1 h2
        subst h1
        subst h2
        refine ⟨rfl, ?_, Or.inl rfl⟩
        intro _
        intro hnone
        rw [hnone, slowBail_none] at hbail
        exact Bool.noConfusion hbail
      · split at h
        · exact Option.noConfusion h
        · split at h
          · exact Option.noConfusion h
          · rename_i d hd
            split at h
            · injection h with h
              injection h with h1 h2
              subst h1
              subst h2
              exact ⟨rfl, by intro hev; simp at hev, Or.inr ⟨d, rfl, rfl⟩⟩
            · injection h with h
              injection h with h1 h2
              subst h1
              subst h2
              exact ⟨rfl, by intro hev; simp at hev, Or.inl rfl⟩

/-- Positional lookup only returns members of the list. -/
theorem listGet_mem {α : Type} :
    ∀ (l : List α) (k : Nat) (a : α), listGet l k = some a → a ∈ l := by
  intro l
  induction l with
  | nil =>
    intro k a h
    simp [listGet] at h
  | cons hd tl ih =>
    intro k a h
    cases k with
    | zero =>
      simp only [listGet] at h
      injection h with h
      rw [← h]
      exact List.mem_cons_self hd tl
    | succ k =>
      simp only [listGet] at h
      exact List.mem_cons_of_mem _ (ih k a h)

/-- The loop produces one record per candidate reached, in order, named after
the candidates. -/
theorem tuningLoop_names (ctx : TuningContext) (pool : Nat) :
    ∀ (cands : List (String × CandidateBehavior)) (st : SelState)
      (recs : List CandRecord) (stf : SelState),
      tuningLoop ctx pool cands st = some (recs, stf) →
      recs.map (fun r => r.name) = cands.map Prod.fst := by
  intro cands
  induction cands with
  | nil =>
    intro st recs stf h
    simp only [tuningLoop] at h
    injection h with h
    injection h with h1 h2
    rw [← h1]
    simp
  | cons hd tl ih =>
    obtain ⟨name, b⟩ := hd
    intro st recs stf h
    simp only [tuningLoop] at h
    split at h
    · exact Option.noConfusion h
    · rename_i rec st1 hc
      split at h
      · exact Option.noConfusion h
      · rename_i recs2 stf2 ht
        injection h with h
        injection h with h1 h2
        rw [← h1]
        simp only [List.map_cons]
        rw [(candidateStep_cases ctx pool name b st rec st1 hc).1, ih st1 recs2 stf2 ht]

/-- The final selection state is either the initial one or records a
completed measurement as the leader. -/
theorem tuningLoop_state (ctx : TuningContext) (pool : Nat) :
    ∀ (cands : List (String × CandidateBehavior)) (st : SelState)
      (recs : List CandRecord) (stf : SelState),
      tuningLoop ctx pool cands st = some (recs, stf) →
      stf = st ∨ ∃ r ∈ recs, ∃ d, r.event = CandEvent.measured d ∧
        stf = ⟨some d, r.name⟩ := by
  intro cands
  induction cands with
  | nil =>
    intro st recs stf h
    simp only [tuningLoop] at h
    injection h with h
    injection h with h1 h2
    exact Or.inl h2.symm
  | cons hd tl ih =>
    obtain ⟨name, b⟩ := hd
    intro st recs stf h
    simp only [tuningLoop] at h
    split at h
    · exact Option.noConfusion h
    · rename_i rec st1 hc
      split at h
      · exact Option.noConfusion h
      · rename_i recs2 stf2 ht
        injection h with h
        injection h with h1 h2
        rw [← h2]
        rcases ih st1 recs2 stf2 ht with hsame | ⟨r, hr, d, hev, hst⟩
        · rcases (candidateStep_cases ctx pool name b st rec st1 hc).2.2 with
            hk | ⟨d, hev, hst⟩
          · exact Or.inl (hsame.trans hk)
          · refine Or.inr ⟨rec, ?_, d, hev, ?_⟩
            · rw [← h1]
              exact List.mem_cons_self _ _
            · rw [hsame, hst, (candidateStep_cases ctx pool name b st rec st1 hc).1]
        · refine Or.inr ⟨r, ?_, d, hev, hst⟩
          rw [← h1]
          exact List.mem_cons_of_mem _ hr

/-- Once a slow-skip happened, the final running minimum is finite. -/
theorem tuningLoop_skip_min (ctx : TuningContext) (pool : Nat) :
    ∀ (cands : List (String × CandidateBehavior)) (st : SelState)
      (recs : List CandRecord) (stf : SelState),
      tuningLoop ctx pool cands st = some (recs, stf) →
      (∃ r ∈ recs, r.event = CandEvent.skippedSlow) →
      stf.minDurationMs ≠ none := by
  intro cands
  induction cands with
  | nil =>
    intro st recs stf h hex
    simp only [tuningLoop] at h
    injection h with h
    injection h with h1 h2
    rw [← h1] at hex
    simp at hex
  | cons hd tl ih =>
    obtain ⟨name, b⟩ := hd
    intro st recs stf h hex
    simp only [tuningLoop] at h
    split at h
    · exact Option.noConfusion h
    · rename_i rec st1 hc
      split at h
      · exact Option.noConfusion h
      · rename_i recs2 stf2 ht
        injection h with h
        injection h with h1 h2
        rw [← h2]
        obtain ⟨r, hr, hrev⟩ := hex
        rw [← h1] at hr
        rcases List.mem_cons.mp hr with hhd | htl
        · rw [hhd] at hrev
          have hmin : st.minDurationMs ≠ none :=
            (candidateStep_cases ctx pool name b st rec st1 hc).2.1 hrev
          have hmin1 : st1.minDurationMs ≠ none := by
            rcases (candidateStep_cases ctx pool name b st rec st1 hc).2.2 with
              hk | ⟨d, _, hst⟩
            · rw [hk]; exact hmin
            · rw [hst]; simp
          rcases tuningLoop_state ctx pool tl st1 recs2 stf2 ht with
            hsame | ⟨r2, _, d2, _, hst2⟩
          · rw [hsame]; exact hmin1
          · rw [hst2]; simp
        · exact ih st1 recs2 stf2 ht ⟨r, htl, hrev⟩

/-- Starting from the infinity seed, every slow-skip record is preceded by a
completed-measurement record. -/
theorem tuningLoop_skip_preceded (ctx : TuningContext) (pool : Nat) :
    ∀ (cands : List (String × CandidateBehavior)) (st : SelState)
      (recs : List CandRecord) (stf : SelState),
      tuningLoop ctx pool cands st = some (recs, stf) →
      st.minDurationMs = none →
      ∀ (k : Nat) (r : CandRecord), listGet recs k = some r →
        r.event = CandEvent.skippedSlow →
        ∃ j, j < k ∧ ∃ rm d, listGet recs j = some rm ∧
          rm.event = CandEvent.measured d := by
  intro cands
  induction cands with
  | nil =>
    intro st recs stf h hmin k r hget hev
    simp only [tuningLoop] at h
    injection h with h
    injection h with h1 h2
    rw [← h1] at hget
    simp [listGet] at hget
  | cons hd tl ih =>
    obtain ⟨name, b⟩ := hd
    intro st recs stf h hmin k r hget hev
    simp only [tuningLoop] at h
    split at h
    · exact Option.noConfusion h
    · rename_i rec st1 hc
      split at h
      · exact Option.noConfusion h
      · rename_i recs2 stf2 ht
        injection h with h
        injection h with h1 h2
        rw [← h1] at hget
        cases k with
        | zero =>
          simp only [listGet] at hget
          injection hget with hget
          rw [← hget] at hev
          exact absurd hmin
            ((candidateStep_cases ctx pool name b st rec st1 hc).2.1 hev)
        | succ k =>
          simp only [listGet] at hget
          cases hrecev : rec.event with
          | measured d =>
            refine ⟨0, Nat.succ_pos k, rec, d, ?_, hrecev⟩
            rw [← h1]
            rfl
          | skippedSlow =>
            exact absurd hmin
              ((candidateStep_cases ctx pool name b st rec st1 hc).2.1 hrecev)
          | unsupported =>
            have hst1 : st1 = st := by
              rcases (candidateStep_cases ctx pool name b st rec st1 hc).2.2 with
                hk | ⟨d, hevm, _⟩
              · exact hk
              · rw [hrecev] at hevm; exact CandEvent.noConfusion hevm
            obtain ⟨j, hj, rm, d, hgetj, hevm⟩ :=
              ih st1 recs2 stf2 ht (by rw [hst1]; exact hmin) k r hget hev
            refine ⟨j + 1, by omega, rm, d, ?_, hevm⟩
            rw [← h1]
            simpa [listGet] using hgetj
          | numericsFailed =>
            have hst1 : st1 = st := by
              rcases (candidateStep_cases ctx pool name b st rec st1 hc).2.2 with
                hk | ⟨d, hevm, _⟩
              · exact hk
              · rw [hrecev] at hevm; exact CandEvent.noConfusion hevm
            obtain ⟨j, hj, rm, d, hgetj, hevm⟩ :=
              ih st1 recs2 stf2 ht (by rw [hst1]; exact hmin) k r hget hev
            refine ⟨j + 1, by omega, rm, d, ?_, hevm⟩
            rw [← h1]
            simpa [listGet] using hgetj

/-- C2: a candidate skipped by the 2x approximate-duration early-bail rule in
a FindFastest run is never the winning name of the Result of that run: under
unique candidate names, if record k of the run is a slow-skip for candidate X
then the winner key of the run is not X. -/
theorem early_bail_never_wins (ctx : TuningContext) (paramSize : Nat)
    (defaultCallOk : Bool) (cands : List (String × CandidateBehavior))
    (k : Nat) (X : String)
    (hND : (cands.map Prod.fst).Nodup)
    (hev : eventAt ctx paramSize defaultCallOk cands k = some CandEvent.skippedSlow)
    (hname : nameAt ctx paramSize defaultCallOk cands k = some X) :
    winnerKey ctx paramSize defaultCallOk cands ≠ some X := by
  intro hw
  unfold eventAt at hev
  unfold nameAt at hname
  unfold recordAt at hev hname
  unfold winnerKey at hw
  cases hFF : FindFastest ctx paramSize defaultCallOk cands with
  | none =>
    rw [hFF] at hev
    simp at hev
  | some res =>
    rw [hFF] at hev hname hw
    simp at hw
    simp only [Option.some_bind] at hev hname
    cases hrec : listGet res.records k with
    | none =>
      rw [hrec] at hev
      simp at hev
    | some rec =>
      rw [hrec] at hev hname
      simp at hev hname
      unfold FindFastest at hFF
      split at hFF
      · split at hFF
        · exact Option.noConfusion hFF
        · rename_i recs stf ht
          injection hFF with hFF
          have hrecords : res.records = recs := by rw [← hFF]
          have hkey : res.entry.key = stf.idName := by rw [← hFF]
          have hmem : rec ∈ recs := listGet_mem recs k rec (hrecords ▸ hrec)
          have hfin : stf.minDurationMs ≠ none :=
            tuningLoop_skip_min ctx _ cands ⟨none, "Default"⟩ recs stf ht
              ⟨rec, hmem, hev⟩
          rcases tuningLoop_state ctx _ cands ⟨none, "Default"⟩ recs stf ht with
            hsame | ⟨rm, hrm, d, hevm, hst⟩
          · rw [hsame] at hfin
            simp at hfin
          · have hXname : rm.name = rec.name := by
              have h1 : stf.idName = rm.name := by rw [hst]
              rw [hname, ← hw, hkey, h1]
            have hND2 : (recs.map (fun r => r.name)).Nodup := by
              rw [tuningLoop_names ctx _ cands ⟨none, "Default"⟩ recs stf ht]
              exact hND
            have heqrec : rm = rec :=
              List.inj_on_of_nodup_map hND2 hrm hmem hXname
            rw [heqrec, hev] at hevm
            exact CandEvent.noConfusion hevm
      · exact Option.noConfusion hFF

/-- Witness for early_bail_never_wins: in the concrete demo run, candidate
Slow is skipped by the early bail at record 1 and the winner is Default. -/
theorem early_bail_never_wins_witness :
    (demoCands.map Prod.fst).Nodup ∧
    winnerKey ctxPlain 1 true demoCands ≠ some "Slow" :=
  ⟨by decide,
   early_bail_never_wins ctxPlain 1 true demoCands 1 "Slow" (by decide)
     (by with_unfolding_all decide) (by with_unfolding_all decide)⟩

/-- C10: no candidate is skipped by the 2x early-bail rule before some
candidate has completed a full measurement: since the running minimum is
seeded with infinity, every slow-skip record of a FindFastest run is
preceded by a completed-measurement record. -/
theorem no_skip_before_first_measurement (ctx : TuningContext)
    (paramSize : Nat) (defaultCallOk : Bool)
    (cands : List (String × CandidateBehavior)) (k : Nat)
    (hev : eventAt ctx paramSize defaultCallOk cands k = some CandEvent.skippedSlow) :
    ∃ j, j < k ∧ ∃ d,
      eventAt ctx paramSize defaultCallOk cands j = some (CandEvent.measured d) := by
  unfold eventAt recordAt at hev ⊢
  cases hFF : FindFastest ctx paramSize defaultCallOk cands with
  | none =>
    rw [hFF] at hev
    simp at hev
  | some res =>
    rw [hFF] at hev
    simp only [Option.some_bind] at hev ⊢
    cases hrec : listGet res.records k with
    | none =>
      rw [hrec] at hev
      simp at hev
    | some rec =>
      rw [hrec] at hev
      simp at hev
      unfold FindFastest at hFF
      split at hFF
      · split at hFF
        · exact Option.noConfusion hFF
        · rename_i recs stf ht
          injection hFF with hFF
          have hrecords : res.records = recs := by rw [← hFF]
          obtain ⟨j, hj, rm, d, hgetj, hevm⟩ :=
            tuningLoop_skip_preceded ctx _ cands ⟨none, "Default"⟩ recs stf ht
              rfl k rec (hrecords ▸ hrec) hev
          refine ⟨j, hj, d, ?_⟩
          rw [hrecords, hgetj]
          simp [hevm]
      · exact Option.noConfusion hFF

/-- Witness for no_skip_before_first_measurement: the slow-skip at record 1
of the demo run is preceded by the full measurement of Default at record 0. -/
theorem no_skip_before_first_measurement_witness :
    eventAt ctxPlain 1 true demoCands 1 = some CandEvent.skippedSlow ∧
    ∃ j, j < 1 ∧ ∃ d,
      eventAt ctxPlain 1 true demoCands j = some (CandEvent.measured d) :=
  ⟨by with_unfolding_all decide,
   no_skip_before_first_measurement ctxPlain 1 true demoCands 1
     (by with_unfolding_all decide)⟩

/-- C6: in every completed FindFastest run with per-copy size S positive, the
parameter buffer pool holds floor(B / S) + 1 deep copies when the rotating
budget B is positive, and exactly 1 copy when B is zero. -/
theorem pool_size_spec (ctx : TuningContext) (paramSize : Nat)
    (defaultCallOk : Bool) (cands : List (String × CandidateBehavior))
    (hS : 0 < paramSize)
    (hRun : (FindFastest ctx paramSize defaultCallOk cands).isSome = true) :
    (0 < ctx.rotatingBufferSize →
      poolSizeOf ctx paramSize defaultCallOk cands =
        some (ctx.rotatingBufferSize / paramSize + 1)) ∧
    (ctx.rotatingBufferSize = 0 →
      poolSizeOf ctx paramSize defaultCallOk cands = some 1) := by
  unfold poolSizeOf
  cases hFF : FindFastest ctx paramSize defaultCallOk cands with
  | none =>
    rw [hFF] at hRun
    simp at hRun
  | some res =>
    have hpool : res.poolSize = ctx.rotatingBufferSize / paramSize + 1 := by
      unfold FindFastest at hFF
      split at hFF
      · split at hFF
        · exact Option.noConfusion hFF
        · rename_i recs stf ht
          injection hFF with hFF
          rw [← hFF]
      · exact Option.noConfusion hFF
    constructor
    · intro _
      simp [hpool]
    · intro hz
      rw [hz] at hpool
      simp [hpool]

/-- Witness for pool_size_spec: budget 10 and per-copy size 3 give a pool of
10 / 3 + 1 = 4 copies in the completed rotating demo run. -/
theorem pool_size_spec_witness :
    0 < 3 ∧
    ((0 < ctxRotating.rotatingBufferSize →
        poolSizeOf ctxRotating 3 true demoCands =
          some (ctxRotating.rotatingBufferSize / 3 + 1)) ∧
     (ctxRotating.rotatingBufferSize = 0 →
        poolSizeOf ctxRotating 3 true demoCands = some 1)) :=
  ⟨by decide,
   pool_size_spec ctxRotating 3 true demoCands (by decide)
     (by with_unfolding_all decide)⟩

/-- C4, evaluated at the failing input: in a numerics-checking FindFastest
run over the three gate paths, the fresh deep copy is created on all three,
but on the failed-call path (candidate BadCall) it is never released, while
the numerics-mismatch path and the success path do release it. The claim
that the copy is released on every path fails on the failed-call path. -/
theorem numerics_gate_copy_leak :
    (FindFastest ctxNumerics 1 true leakCands).map
        (fun r => r.records.map (fun c => (c.name, c.event, c.copyCreated, c.copyDeleted)))
      = some [("Default", CandEvent.measured 10, true, true),
              ("BadCall", CandEvent.unsupported, true, false),
              ("BadNumerics", CandEvent.numericsFailed, true, true)] := by
  with_unfolding_all decide

/-- When every call reports OK the call loop always completes. -/
theorem runCalls_all_ok (call : Nat → TuningStatus) (pool : Nat)
    (hOK : ∀ i, call i = TuningStatus.OK) :
    ∀ (n i : Nat), runCalls call pool i n = some () := by
  intro n
  induction n with
  | zero =>
    intro i
    rfl
  | succ m ih =>
    intro i
    simp only [runCalls]
    rw [if_pos (hOK (i % pool))]
    exact ih (i + 1)

/-- A candidate whose timed calls succeed profiles to elapsed / n. -/
theorem Profile_ok (b : CandidateBehavior) (h3 : b.timedCallsOk = true)
    (pool n : Nat) (e : Rat) :
    Profile (candCalls b) pool n e = some (e / (n : Rat)) := by
  unfold Profile
  rw [runCalls_all_ok (candCalls b) pool (fun i => by simp [candCalls, h3]) n 0]

/-- A candidate whose timed calls succeed completes any warmup. -/
theorem WarmUp_ok (b : CandidateBehavior) (h3 : b.timedCallsOk = true)
    (pool n : Nat) : WarmUp (candCalls b) pool n = some () := by
  unfold WarmUp
  exact runCalls_all_ok (candCalls b) pool (fun i => by simp [candCalls, h3]) n 0

/-- A candidate passing the call gate and the numerics gate is not skipped by
the correctness gate. -/
theorem gateOf_pass (ctx : TuningContext) (b : CandidateBehavior)
    (h1 : b.gateCallOk = true) (h2 : b.numericsOk = true) :
    (gateOf ctx b).skip = none := by
  unfold gateOf numericsGate plainGate
  split <;> simp [h1, h2]

/-- Against a state with the infinity seed, a candidate that passes the
correctness gate and whose timed calls succeed is fully measured and becomes
the leader. -/
theorem candidateStep_seed_ok (ctx : TuningContext) (pool : Nat)
    (name : String) (b : CandidateBehavior) (st : SelState)
    (h1 : b.gateCallOk = true) (h2 : b.numericsOk = true)
    (h3 : b.timedCallsOk = true) (hmin : st.minDurationMs = none) :
    candidateStep ctx pool name b st =
      some (⟨name,
             CandEvent.measured (b.tuningElapsed /
               ((computeTuningIter pool ctx.maxTuningDurationMs
                   ctx.maxTuningIterations
                   (b.approxElapsed / (approxNumIter : Rat))).toNat : Rat)),
             (gateOf ctx b).copyCreated, (gateOf ctx b).copyDeleted⟩,
            ⟨some (b.tuningElapsed /
               ((computeTuningIter pool ctx.maxTuningDurationMs
                   ctx.maxTuningIterations
                   (b.approxElapsed / (approxNumIter : Rat))).toNat : Rat)),
             name⟩) := by
  simp only [candidateStep, gateOf_pass ctx b h1 h2, Profile_ok b h3, hmin,
    slowBail, WarmUp_ok b h3, beatsMin, Bool.false_eq_true, if_false, if_true]

/-- Unfolding one iteration of the loop once the head step is known. -/
theorem tuningLoop_cons_step (ctx : TuningContext) (pool : Nat) (name : String)
    (b : CandidateBehavior) (st : SelState) (rec : CandRecord) (st1 : SelState)
    (rest : List (String × CandidateBehavior))
    (hstep : candidateStep ctx pool name b st = some (rec, st1)) :
    tuningLoop ctx pool ((name, b) :: rest) st =
      match tuningLoop ctx pool rest st1 with
      | none => none
      | some (recs, stf) => some (rec :: recs, stf) := by
  simp only [tuningLoop, hstep]

/-- C5 counterexample: a concrete FindFastest run over the candidates
Default and Fast in which the Default candidate itself is timed in the
competition loop (its record is a completed measurement), refuting the claim
that the Default candidate is never timed there. -/
theorem default_candidate_timed_cex :
    (FindFastest ctxPlain 1 true cexCands).map
        (fun r => r.records.map (fun c => (c.name, isMeasured c.event)))
      = some [("Default", true), ("Fast", true)] := by
  with_unfolding_all decide

/-- C5 amended: in every FindFastest run the Default name is the seed of the
running-minimum comparison and the fallback: if no candidate completes a
measurement, the Result is the Default name with infinite duration. The
Default candidate is not, however, excluded from the competition loop: like
every registered candidate it is evaluated in registration order, and when
it is the first candidate, passes the correctness gate, and its timed calls
succeed, it is itself fully measured. -/
theorem default_seed_fallback_yet_timed (ctx : TuningContext)
    (paramSize : Nat) (defaultCallOk : Bool)
    (cands : List (String × CandidateBehavior)) :
    (∀ recs, recordsOf ctx paramSize defaultCallOk cands = some recs →
      (∀ r ∈ recs, isMeasured r.event = false) →
      entryOf ctx paramSize defaultCallOk cands = some ⟨"Default", none⟩) ∧
    (∀ b rest, cands = ("Default", b) :: rest →
      b.gateCallOk = true → b.numericsOk = true → b.timedCallsOk = true →
      (FindFastest ctx paramSize defaultCallOk cands).isSome = true →
      nameAt ctx paramSize defaultCallOk cands 0 = some "Default" ∧
      ∃ d, eventAt ctx paramSize defaultCallOk cands 0 =
        some (CandEvent.measured d)) := by
  constructor
  · intro recs hrecs hnm
    unfold entryOf
    unfold recordsOf at hrecs
    cases hFF : FindFastest ctx paramSize defaultCallOk cands with
    | none =>
      rw [hFF] at hrecs
      simp at hrecs
    | some res =>
      rw [hFF] at hrecs
      simp at hrecs
      unfold FindFastest at hFF
      split at hFF
      · split at hFF
        · exact Option.noConfusion hFF
        · rename_i recs2 stf ht
          injection hFF with hFF
          have hrecords : res.records = recs2 := by rw [← hFF]
          have hentry : res.entry = ⟨stf.idName, stf.minDurationMs⟩ := by
            rw [← hFF]
          rcases tuningLoop_state ctx _ cands ⟨none, "Default"⟩ recs2 stf ht with
            hsame | ⟨r, hr, d, hevm, hst⟩
          · simp only [Option.map_some']
            rw [hentry, hsame]
          · exfalso
            have hrmem : r ∈ recs := by
              rw [← hrecs, hrecords]
              exact hr
            have hx := hnm r hrmem
            rw [hevm] at hx
            simp [isMeasured] at hx
      · exact Option.noConfusion hFF
  · intro b rest hcands hg hn htc hsome
    subst hcands
    unfold nameAt eventAt recordAt
    cases hFF : FindFastest ctx paramSize defaultCallOk
        (("Default", b) :: rest) with
    | none =>
      rw [hFF] at hsome
      simp at hsome
    | some res =>
      unfold FindFastest at hFF
      split at hFF
      · split at hFF
        · exact Option.noConfusion hFF
        · rename_i recs stf ht
          injection hFF with hFF
          have hstep := candidateStep_seed_ok ctx
            (ctx.rotatingBufferSize / paramSize + 1) "Default" b
            ⟨none, "Default"⟩ hg hn htc rfl
          rw [tuningLoop_cons_step ctx _ "Default" b ⟨none, "Default"⟩ _ _ rest
            hstep] at ht
          split at ht
          · exact Option.noConfusion ht
          · rename_i recs2 stf2 ht2
            injection ht with ht
            injection ht with hl1 hl2
            have hrecords : res.records = recs := by rw [← hFF]
            constructor
            · simp only [Option.some_bind]
              rw [hrecords, ← hl1]
              simp [listGet]
            · refine ⟨b.tuningElapsed /
                ((computeTuningIter (ctx.rotatingBufferSize / paramSize + 1)
                   ctx.maxTuningDurationMs ctx.maxTuningIterations
                   (b.approxElapsed / (approxNumIter : Rat))).toNat : Rat), ?_⟩
              simp only [Option.some_bind]
              rw [hrecords, ← hl1]
              simp [listGet]
      · exact Option.noConfusion hFF

/-- Witness for default_seed_fallback_yet_timed: in the concrete cex run the
first candidate Default passes all gates and its record 0 is a completed
measurement. -/
theorem default_seed_fallback_yet_timed_witness :
    nameAt ctxPlain 1 true cexCands 0 = some "Default" ∧
    ∃ d, eventAt ctxPlain 1 true cexCands 0 = some (CandEvent.measured d) :=
  (default_seed_fallback_yet_timed ctxPlain 1 true cexCands).2
    (okBehavior 30 100) [("Fast", okBehavior 3 10)] rfl rfl rfl rfl
    (by with_unfolding_all decide)

end TunableOpModel
